import Mathlib

/-!
Verification of the go-split response-handling core.

The Go sources are shallowly embedded here:
* the extraction helpers of `internal/cmd/generate_helpers.go`
  (`parseFilenames`, `cleanCode`, `parseSourceAndTest`,
  `stripMarkdownFence`, `countTestsInCode`) are embedded as pure
  functions over `List Char` (Go strings viewed as character sequences;
  all inputs considered here are ASCII, where Go's byte indexing and
  character indexing agree);
* the API client of `internal/api/client.go` (`Client`, `NewClient`,
  `WithCapture`, `Call`, `captureExchange`) is embedded with the
  external world (HTTP round trips, the JSON decoder of the standard
  library, the file system) supplied as explicit oracle values.
-/

set_option maxRecDepth 4096

/-- Go strings, viewed as sequences of characters. -/
abbrev Str := List Char

/-- The character list of a Lean string literal. -/
def str (s : String) : Str := s.data

/-- The set of characters trimmed by Go's `strings.TrimSpace`
(`unicode.IsSpace`, restricted to the Latin-1 range). -/
def isGoSpace (c : Char) : Bool :=
  c = ' ' || c = '\t' || c = '\n' || c = Char.ofNat 11 || c = Char.ofNat 12 ||
  c = '\r' || c = Char.ofNat 0x85 || c = Char.ofNat 0xA0

/-- Drop characters satisfying `p` from the front. -/
def trimLeftP (p : Char → Bool) (s : Str) : Str := s.dropWhile p

/-- Drop characters satisfying `p` from the back. -/
def trimRightP (p : Char → Bool) (s : Str) : Str := (s.reverse.dropWhile p).reverse

/-- Go `strings.TrimSpace`. -/
def goTrimSpace (s : Str) : Str := trimRightP isGoSpace (trimLeftP isGoSpace s)

/-- Go `strings.HasPrefix pat s`: does `s` start with `pat`? -/
def goStarts : Str → Str → Bool
  | [], _ => true
  | _ :: _, [] => false
  | p :: ps, c :: cs => p = c && goStarts ps cs

/-- Go `strings.HasSuffix pat s`: does `s` end with `pat`? -/
def goEnds (pat s : Str) : Bool := goStarts pat.reverse s.reverse

/-- Go `strings.Trim s cutset`: trim any characters of `cut` from both ends. -/
def goTrim (cut : Str) (s : Str) : Str :=
  trimRightP (fun c => cut.contains c) (trimLeftP (fun c => cut.contains c) s)

/-- Go `strings.Split s (String.singleton sep)`. -/
def splitC (sep : Char) : Str → List Str
  | [] => [[]]
  | c :: cs =>
    match splitC sep cs with
    | [] => [[]]
    | l :: ls => if c = sep then [] :: l :: ls else (c :: l) :: ls

/-- Go `strings.Split s "\n"`. -/
def splitNl : Str → List Str := splitC '\n'

/-- Go `strings.Join lines "\n"`. -/
def joinNl : List Str → Str
  | [] => []
  | [l] => l
  | l :: ls => l ++ '\n' :: joinNl ls

/-- Accumulator pass of `fields`: `cur` is the current word, reversed. -/
def fieldsAux : Str → Str → List Str
  | [], cur => if cur = [] then [] else [cur.reverse]
  | c :: cs, cur =>
    if isGoSpace c then
      if cur = [] then fieldsAux cs [] else cur.reverse :: fieldsAux cs []
    else fieldsAux cs (c :: cur)

/-- Go `strings.Fields`: the maximal runs of non-whitespace characters. -/
def fields (s : Str) : List Str := fieldsAux s []

/-- Go `strings.Index s (String.singleton c)` (-1 when absent). -/
def idxOfC (s : Str) (c : Char) : Int :=
  match s with
  | [] => -1
  | a :: as =>
    if a = c then 0
    else
      let r := idxOfC as c
      if r < 0 then -1 else r + 1

/-- Go `strings.LastIndex s (String.singleton c)` (-1 when absent). -/
def lastIdxOfC (s : Str) (c : Char) : Int :=
  match s with
  | [] => -1
  | a :: as =>
    let r := lastIdxOfC as c
    if r ≥ 0 then r + 1 else if a = c then 0 else -1

/-- Go slicing `s[a:b]`. -/
def goSlice (s : Str) (a b : Nat) : Str := (s.take b).drop a

/-- The markdown fence marker. -/
def fenceMark : Str := str "```"

/-- Embedding of `cleanCode` (generate_helpers.go): trim whitespace; if the
result starts with a fence marker and has more than two lines, drop the
first line, and drop the last line only when it trims to a bare fence. -/
def cleanCode (code0 : Str) : Str :=
  let code := goTrimSpace code0
  if goStarts fenceMark code then
    let lines := splitNl code
    if lines.length > 2 then
      let endIdx := lines.length - 1
      if goTrimSpace (lines.getD endIdx []) = fenceMark then
        joinNl ((lines.take endIdx).drop 1)
      else
        joinNl (lines.drop 1)
    else code
  else code

/-- The character `"` (written by code point to keep literals simple). -/
def quoteC : Char := Char.ofNat 34

/-- The character `'`. -/
def apostC : Char := Char.ofNat 39

/-- The character `\`. -/
def backslashC : Char := Char.ofNat 92

/-- The suffix `.go` recognized by `parseFilenames`. -/
def dotGo : Str := str ".go"

/-- The cutset of `strings.Trim(p, " \"'\t\n")` in `parseFilenames`. -/
def trimQuoteSet : Str := [' ', quoteC, apostC, '\t', '\n']

/-- The cutset of the raw Go string with quote, apostrophe, comma and the
two square brackets, used by the whitespace-token fallback. -/
def trimPunctSet : Str := [quoteC, apostC, ',', '[', ']']

/-- Embedding of `parseFilenames` (generate_helpers.go): comma-split the
substring between the first `[` and the last `]`, trim each piece, keep
pieces ending in `.go`; only if that yields nothing, fall back to
whitespace tokens with punctuation stripped. -/
def parseFilenames (response : Str) : List Str :=
  let start := idxOfC response '['
  let endI := lastIdxOfC response ']'
  let filenames : List Str :=
    if start ≥ 0 ∧ endI > start then
      let arr := goSlice response (start.toNat + 1) endI.toNat
      let parts := splitC ',' arr
      (parts.map (goTrim trimQuoteSet)).filter (fun p => goEnds dotGo p)
    else []
  if filenames = [] then
    ((fields response).map (goTrim trimPunctSet)).filter (fun w => goEnds dotGo w)
  else filenames

/-- Embedding of `stripMarkdownFence` (generate_helpers.go). -/
def stripMarkdownFence (s0 : Str) : Str :=
  let s := goTrimSpace s0
  if goStarts fenceMark s then
    let lines := splitNl s
    if lines.length > 2 then
      let lines1 := lines.drop 1
      if goTrimSpace (lines1.getD (lines1.length - 1) []) = fenceMark then
        joinNl (lines1.take (lines1.length - 1))
      else
        joinNl lines1
    else s
  else s

/-- Embedding of `countTestsInCode` (generate_helpers.go): the number of
lines whose trimmed content starts with `func Test`. -/
def countTestsInCode (code : Str) : Nat :=
  ((splitNl code).filter (fun line => goStarts (str "func Test") (goTrimSpace line))).length

/-- The `{source, test}` pair decoded by `parseSourceAndTest`. -/
structure SourceTest where
  source : Str
  test : Str
deriving DecidableEq

/-- JSON insignificant whitespace. -/
def jsonIsWs (c : Char) : Bool := c = ' ' || c = '\t' || c = '\n' || c = '\r'

/-- Skip JSON insignificant whitespace. -/
def skipWs (s : Str) : Str := s.dropWhile jsonIsWs

/-- Hexadecimal digit value. -/
def hexVal (c : Char) : Option Nat :=
  if '0' ≤ c ∧ c ≤ '9' then some (c.toNat - '0'.toNat)
  else if 'a' ≤ c ∧ c ≤ 'f' then some (c.toNat - 'a'.toNat + 10)
  else if 'A' ≤ c ∧ c ≤ 'F' then some (c.toNat - 'A'.toNat + 10)
  else none

/-- Modelled from the external standard library `encoding/json`: decode the
remainder of a JSON string literal (the opening quote already consumed),
returning the decoded characters and the input after the closing quote. -/
def parseJsonString : Str → Option (Str × Str)
  | [] => none
  | c :: cs =>
    if c = quoteC then some ([], cs)
    else if c = backslashC then
      match cs with
      | [] => none
      | e :: cs2 =>
        if e = quoteC then
          match parseJsonString cs2 with
          | some (out, r) => some (quoteC :: out, r)
          | none => none
        else if e = backslashC then
          match parseJsonString cs2 with
          | some (out, r) => some (backslashC :: out, r)
          | none => none
        else if e = '/' then
          match parseJsonString cs2 with
          | some (out, r) => some ('/' :: out, r)
          | none => none
        else if e = 'n' then
          match parseJsonString cs2 with
          | some (out, r) => some ('\n' :: out, r)
          | none => none
        else if e = 't' then
          match parseJsonString cs2 with
          | some (out, r) => some ('\t' :: out, r)
          | none => none
        else if e = 'r' then
          match parseJsonString cs2 with
          | some (out, r) => some ('\r' :: out, r)
          | none => none
        else if e = 'b' then
          match parseJsonString cs2 with
          | some (out, r) => some (Char.ofNat 8 :: out, r)
          | none => none
        else if e = 'f' then
          match parseJsonString cs2 with
          | some (out, r) => some (Char.ofNat 12 :: out, r)
          | none => none
        else if e = 'u' then
          match cs2 with
          | h1 :: h2 :: h3 :: h4 :: cs3 =>
            match hexVal h1, hexVal h2, hexVal h3, hexVal h4 with
            | some a, some b, some c2, some d2 =>
              match parseJsonString cs3 with
              | some (out, r) => some (Char.ofNat (((a * 16 + b) * 16 + c2) * 16 + d2) :: out, r)
              | none => none
            | _, _, _, _ => none
          | _ => none
        else none
    else if c.toNat < 0x20 then none
    else
      match parseJsonString cs with
      | some (out, r) => some (c :: out, r)
      | none => none

/-- Modelled from the external standard library `encoding/json`: the member
list of a JSON object whose values are all string literals (the shape
`parseSourceAndTest` expects; non-string member values make the model
decline, where the library would ignore unknown fields), with the opening
brace already consumed.  Returns the key/value pairs in order and the input
after the closing brace.  `fuel` bounds recursion depth. -/
def parseJsonMembers : Nat → Str → Option (List (Str × Str) × Str)
  | 0, _ => none
  | fuel + 1, s =>
    match skipWs s with
    | c :: rest =>
      if c = quoteC then
        match parseJsonString rest with
        | none => none
        | some (key, r1) =>
          match skipWs r1 with
          | ':' :: r2 =>
            match skipWs r2 with
            | v :: r3 =>
              if v = quoteC then
                match parseJsonString r3 with
                | none => none
                | some (val, r4) =>
                  match skipWs r4 with
                  | ',' :: r5 =>
                    match parseJsonMembers fuel r5 with
                    | some (ms, r6) => some ((key, val) :: ms, r6)
                    | none => none
                  | '\x7d' :: r5 => some ([(key, val)], r5)
                  | _ => none
              else none
            | [] => none
          | _ => none
      else none
    | [] => none

/-- ASCII lower-casing, the fragment of Go `strings.EqualFold` exercised by
field-name matching. -/
def lowerChar (c : Char) : Char :=
  if 'A' ≤ c ∧ c ≤ 'Z' then Char.ofNat (c.toNat + 32) else c

/-- Case-insensitive equality of key and field name (Go `encoding/json`
matches struct fields case-insensitively). -/
def eqFold (a b : Str) : Bool := a.map lowerChar == b.map lowerChar

/-- Modelled from the external standard library `encoding/json`: unmarshal
a whole input into the struct `{Source, Test string}`.  The input must be a
single JSON object (with string-valued members) followed only by
whitespace; later duplicate keys overwrite earlier ones; keys match fields
case-insensitively; unmatched keys are ignored; missing fields keep their
zero value. -/
def jsonDecodeSourceTest (s : Str) : Option SourceTest :=
  match skipWs s with
  | '\x7b' :: r =>
    match skipWs r with
    | '\x7d' :: r2 => if skipWs r2 = [] then some ⟨[], []⟩ else none
    | _ =>
      match parseJsonMembers (r.length + 1) r with
      | some (ms, rest) =>
        if skipWs rest = [] then
          some (ms.foldl (fun acc kv =>
            if eqFold kv.1 (str "source") then { acc with source := kv.2 }
            else if eqFold kv.1 (str "test") then { acc with test := kv.2 }
            else acc) ⟨[], []⟩)
        else none
      | none => none
  | _ => none

/-- The literal `"source"` searched for by `strings.Contains`. -/
def quotedSource : Str := quoteC :: str "source" ++ [quoteC]

/-- Go `strings.Contains s pat`. -/
def containsSub (pat : Str) : Str → Bool
  | [] => goStarts pat []
  | c :: cs => goStarts pat (c :: cs) || containsSub pat cs

/-- The brace-substring fallback of `parseSourceAndTest`: locate the first
`{` and the last `}` of the fence-stripped text, and if the span contains
the literal `"source"`, try to unmarshal it; on any failure return the
whole original response as source. -/
def braceFallback (response cleaned : Str) : Str × Str :=
  let start := idxOfC cleaned '\x7b'
  let endI := lastIdxOfC cleaned '\x7d'
  if start ≥ 0 ∧ endI > start then
    let jsonStr := goSlice cleaned start.toNat (endI.toNat + 1)
    if containsSub quotedSource jsonStr then
      match jsonDecodeSourceTest jsonStr with
      | some result => if result.source ≠ [] then (result.source, result.test) else (response, [])
      | none => (response, [])
    else (response, [])
  else (response, [])

/-- Embedding of `parseSourceAndTest` (generate_helpers.go): strip a
markdown fence, try to unmarshal the stripped text, fall back to the brace
substring, and as a last resort return the whole original response as
source with an empty test. -/
def parseSourceAndTest (response : Str) : Str × Str :=
  let cleaned := stripMarkdownFence response
  match jsonDecodeSourceTest cleaned with
  | some result =>
    if result.source ≠ [] then (result.source, result.test)
    else braceFallback response cleaned
  | none => braceFallback response cleaned

/-- `api.ContentBlock`: a content block of the Messages API response. -/
structure ContentBlock where
  type : String
  text : String
deriving DecidableEq

/-- `api.APIError`: an error reported inside a 200 response body. -/
structure APIError where
  message : String
deriving DecidableEq

/-- `api.Response`: the decoded Messages API response body. -/
structure Response where
  content : List ContentBlock
  error : Option APIError
deriving DecidableEq

/-- The underlying `http.Client`, abstracted to its configuration. -/
structure HTTPClient where
  timeout : Nat
deriving DecidableEq

/-- `api.Client`. -/
structure Client where
  endpoint : String
  model : String
  timeout : Nat
  http : HTTPClient
  captureDir : String
deriving DecidableEq

/-- `api.NewClient`: captureDir starts empty; the HTTP client inherits the
timeout. -/
def NewClient (endpoint model : String) (timeout : Nat) : Client :=
  { endpoint := endpoint, model := model, timeout := timeout,
    http := { timeout := timeout }, captureDir := "" }

/-- A heap of `Client` values addressed by pointer, used to state what the
pointer-receiver methods mutate. -/
abbrev ClientHeap := Nat → Client

/-- Embedding of `Client.WithCapture`: through the receiver pointer `p`,
set the `captureDir` field and return the same pointer. -/
def WithCapture (h : ClientHeap) (p : Nat) (dir : String) : ClientHeap × Nat :=
  (fun q => if q = p then { h p with captureDir := dir } else h q, p)

/-- The outcome of the single `c.http.Do` round trip of `Client.Call`, as
supplied by the network environment: a transport error, a body-read error,
or a status code with the raw body and the result of the external JSON
decoder on that body. -/
inductive AttemptResult where
  | netErr (msg : String)
  | readErr (msg : String)
  | httpResp (status : Nat) (rawBody : String) (decoded : Option Response)
deriving DecidableEq

/-- The file-system outcomes seen by one `captureExchange` run. -/
structure FS where
  mkdirErr : Option String
  writeReqErr : Option String
  writeRespErr : Option String
deriving DecidableEq

/-- Embedding of `Client.captureExchange`: create the capture directory and
write the request and response files, propagating the first wrapped
failure. -/
def captureExchange (fs : FS) : Except String Unit :=
  match fs.mkdirErr with
  | some e => .error ("create capture dir: " ++ e)
  | none =>
    match fs.writeReqErr with
    | some e => .error ("write request: " ++ e)
    | none =>
      match fs.writeRespErr with
      | some e => .error ("write response: " ++ e)
      | none => .ok ()

/-- What one `Client.Call` invocation returns and observably does:
how many HTTP round trips it performed, the returned text, the returned
error (`none` means a nil error), and the warnings printed to stderr. -/
structure CallResult where
  attempts : Nat
  text : String
  err : Option String
  stderr : List String
deriving DecidableEq

/-- Embedding of `Client.Call` (client.go lines 71-130).  The network
environment `net` maps the index of a round trip to its outcome; the code
performs exactly one round trip (`net 0`) — it has no retry loop — and the
`attempts` field records how many it performed.  A non-200 status, an
undecodable body, a populated `error` field and an empty `content` array
each return an error; otherwise the text of the first content block is
returned, after an optional capture whose failure is only logged. -/
def Call (c : Client) (net : Nat → AttemptResult) (fs : FS) : CallResult :=
  match net 0 with
  | .netErr e => { attempts := 1, text := "", err := some ("http request: " ++ e), stderr := [] }
  | .readErr e => { attempts := 1, text := "", err := some ("read response: " ++ e), stderr := [] }
  | .httpResp status rawBody decoded =>
    if status ≠ 200 then
      { attempts := 1, text := "",
        err := some ("API returned " ++ toString status ++ ": " ++ rawBody), stderr := [] }
    else
      match decoded with
      | none =>
        { attempts := 1, text := "", err := some "parse response: invalid JSON", stderr := [] }
      | some apiResp =>
        match apiResp.error with
        | some e =>
          { attempts := 1, text := "", err := some ("API error: " ++ e.message), stderr := [] }
        | none =>
          match apiResp.content with
          | [] =>
            { attempts := 1, text := "", err := some "empty response from API", stderr := [] }
          | block :: _ =>
            let responseText := block.text
            if c.captureDir ≠ "" then
              match captureExchange fs with
              | .error e =>
                { attempts := 1, text := responseText, err := none,
                  stderr := ["Warning: capture failed: " ++ e] }
              | .ok _ => { attempts := 1, text := responseText, err := none, stderr := [] }
            else { attempts := 1, text := responseText, err := none, stderr := [] }

/-- A file system whose operations all succeed. -/
def fsOk : FS := { mkdirErr := none, writeReqErr := none, writeRespErr := none }

/-- A sample client built by the constructor. -/
def clientA : Client := NewClient "http://localhost:8000/v1/messages" "test-model" 10

/-- A network environment that answers HTTP 500 to every round trip. -/
def netAll500 : Nat → AttemptResult := fun _ => .httpResp 500 "oops" none

/-- A network environment that answers HTTP 400 to every round trip. -/
def netAll400 : Nat → AttemptResult := fun _ => .httpResp 400 "bad request" none

/-- A client with capture mode enabled. -/
def clientCap : Client := { clientA with captureDir := "captures" }

/-- A file system on which creating the capture directory fails. -/
def fsMkdirFail : FS := { mkdirErr := some "disk full", writeReqErr := none, writeRespErr := none }

/-- A one-cell heap holding the sample client. -/
def heapA : ClientHeap := fun _ => clientA

/-- A fenced blob whose interior keeps surrounding whitespace, so cleaning
it once leaves text that a second cleaning still changes. -/
def c3input : Str := str "```\n a\nb \n```"

/-- Does unmarshalling `s` fail to recover a non-empty `source` (the
condition under which `parseSourceAndTest` moves past a parse attempt)? -/
def noSourceRecovered (s : Str) : Bool :=
  match jsonDecodeSourceTest s with
  | some res => res.source.isEmpty
  | none => true

/-- The pieces kept by the bracketed primary strategy of
`parseFilenames`: the comma-split of the text between the first `[` and
the last `]`, each piece trimmed, keeping the `.go`-suffixed ones. -/
def bracketPieces (r : Str) : List Str :=
  ((splitC ',' (goSlice r ((idxOfC r '[').toNat + 1) (lastIdxOfC r ']').toNat)).map
    (goTrim trimQuoteSet)).filter (fun p => goEnds dotGo p)

/-- C1: counter to the claim's first half, `Client.Call` has no retry loop:
in an environment where every round trip yields HTTP 500, it performs
exactly 1 attempt (not 4) and immediately returns the status failure; on a
400 it likewise performs exactly 1 attempt. -/
theorem call_single_attempt_on_500 :
    (Call clientA netAll500 fsOk).attempts = 1 ∧
    (Call clientA netAll500 fsOk).attempts ≠ 4 ∧
    (Call clientA netAll500 fsOk).err = some "API returned 500: oops" ∧
    (Call clientA netAll400 fsOk).attempts = 1 ∧
    (Call clientA netAll400 fsOk).err = some "API returned 400: bad request" := by
  decide

/-- C2 (counterexample): a 200 response whose first content block is not
text-typed is returned as a success — `Client.Call` never inspects the
`type` field — contradicting the claim that it yields a Protocol failure. -/
theorem call_nontext_first_block_succeeds :
    (Call clientA (fun _ => .httpResp 200 "raw" (some ⟨[⟨"tool_use", "hi"⟩], none⟩)) fsOk).err =
        none ∧
    (Call clientA (fun _ => .httpResp 200 "raw" (some ⟨[⟨"tool_use", "hi"⟩], none⟩)) fsOk).text =
        "hi" := by
  decide

/-- C2 (amended): on an HTTP 200 response with a decodable body,
`Client.Call` succeeds exactly when the `error` field is absent and the
`content` array is non-empty, and then it returns the first content
block's text regardless of that block's `type`; a populated `error` field
or an empty `content` array yields a failure. -/
theorem call_ok_characterization (c : Client) (net : Nat → AttemptResult) (fs : FS)
    (raw : String) (resp : Response)
    (hnet : net 0 = .httpResp 200 raw (some resp)) :
    ((Call c net fs).err = none ↔ resp.error = none ∧ resp.content ≠ []) ∧
    (∀ b bs, resp.error = none → resp.content = b :: bs → (Call c net fs).text = b.text) := by
  have key : ∀ (b : ContentBlock) (bs : List ContentBlock),
      resp.error = none → resp.content = b :: bs →
      (Call c net fs).err = none ∧ (Call c net fs).text = b.text := by
    intro b bs herr hc
    cases hcap : captureExchange fs with
    | error e => by_cases hdir : c.captureDir = "" <;> simp [Call, hnet, herr, hc, hcap, hdir]
    | ok u => by_cases hdir : c.captureDir = "" <;> simp [Call, hnet, herr, hc, hcap, hdir]
  constructor
  · cases herr : resp.error with
    | some e => simp [Call, hnet, herr]
    | none =>
      cases hc : resp.content with
      | nil => simp [Call, hnet, herr, hc]
      | cons b bs => simp [(key b bs herr hc).1, hc]
  · intro b bs herr hc
    exact (key b bs herr hc).2

/-- C2 (witness): the characterization at a concrete 200 exchange. -/
theorem call_ok_characterization_witness :
    ((Call clientA (fun _ => .httpResp 200 "raw" (some ⟨[⟨"text", "X"⟩], none⟩)) fsOk).err =
        none ↔ (none : Option APIError) = none ∧ ([⟨"text", "X"⟩] : List ContentBlock) ≠ []) ∧
    (Call clientA (fun _ => .httpResp 200 "raw" (some ⟨[⟨"text", "X"⟩], none⟩)) fsOk).text =
        "X" := by
  have h := call_ok_characterization clientA
    (fun _ => .httpResp 200 "raw" (some ⟨[⟨"text", "X"⟩], none⟩)) fsOk
    "raw" ⟨[⟨"text", "X"⟩], none⟩ rfl
  exact ⟨h.1, h.2 ⟨"text", "X"⟩ [] rfl rfl⟩

/-- C8: when capture mode is on and `captureExchange` fails, `Client.Call`
still returns the successful response text with a nil error; the failure
only produces a stderr warning. -/
theorem call_capture_failure_swallowed (c : Client) (net : Nat → AttemptResult) (fs : FS)
    (raw e : String) (resp : Response) (b : ContentBlock) (bs : List ContentBlock)
    (hnet : net 0 = .httpResp 200 raw (some resp))
    (herr : resp.error = none) (hc : resp.content = b :: bs)
    (hdir : c.captureDir ≠ "")
    (hfail : captureExchange fs = .error e) :
    Call c net fs = { attempts := 1, text := b.text, err := none,
                      stderr := ["Warning: capture failed: " ++ e] } := by
  simp [Call, hnet, herr, hc, hdir, hfail]

/-- C8 (witness): a concrete successful exchange whose capture fails. -/
theorem call_capture_failure_swallowed_witness :
    Call clientCap (fun _ => .httpResp 200 "raw" (some ⟨[⟨"text", "hello"⟩], none⟩)) fsMkdirFail =
      { attempts := 1, text := "hello", err := none,
        stderr := ["Warning: capture failed: create capture dir: disk full"] } := by
  exact call_capture_failure_swallowed clientCap
    (fun _ => .httpResp 200 "raw" (some ⟨[⟨"text", "hello"⟩], none⟩)) fsMkdirFail
    "raw" "create capture dir: disk full" ⟨[⟨"text", "hello"⟩], none⟩ ⟨"text", "hello"⟩ []
    rfl rfl rfl (by decide) rfl

/-- C9: `Client.WithCapture` sets only the `captureDir` field of the
receiver, leaves `endpoint`, `model`, `timeout` and the underlying HTTP
client unchanged, mutates the receiver in place (the heap cell at the
receiver pointer), returns that same pointer, and touches no other heap
cell. -/
theorem withCapture_sets_only_captureDir (h : ClientHeap) (p : Nat) (dir : String) :
    (WithCapture h p dir).2 = p ∧
    ((WithCapture h p dir).1 p).captureDir = dir ∧
    ((WithCapture h p dir).1 p).endpoint = (h p).endpoint ∧
    ((WithCapture h p dir).1 p).model = (h p).model ∧
    ((WithCapture h p dir).1 p).timeout = (h p).timeout ∧
    ((WithCapture h p dir).1 p).http = (h p).http ∧
    (∀ q, q ≠ p → (WithCapture h p dir).1 q = h q) := by
  refine ⟨rfl, ?_, ?_, ?_, ?_, ?_, ?_⟩ <;> simp [WithCapture]
  intro q hq
  simp [hq]

/-- C9 (witness): the frame conditions at a concrete heap and pointer. -/
theorem withCapture_sets_only_captureDir_witness :
    (WithCapture heapA 0 "captures").2 = 0 ∧
    ((WithCapture heapA 0 "captures").1 0).captureDir = "captures" ∧
    ((WithCapture heapA 0 "captures").1 0).endpoint = (heapA 0).endpoint ∧
    ((WithCapture heapA 0 "captures").1 1) = heapA 1 := by
  have h := withCapture_sets_only_captureDir heapA 0 "captures"
  exact ⟨h.1, h.2.1, h.2.2.1, h.2.2.2.2.2.2 1 (by decide)⟩

/-- C3 (counterexample): `cleanCode` is not idempotent: cleaning the
fenced blob yields the untrimmed interior, and cleaning that again trims
it to something different. -/
theorem cleanCode_not_idempotent :
    cleanCode (cleanCode c3input) ≠ cleanCode c3input := by decide

/-- C3 (amended): `cleanCode` is idempotent at every input whose cleaned
form is already whitespace-trimmed and does not start with a fence
marker. -/
theorem cleanCode_idempotent_on_clean (x : Str)
    (h1 : goTrimSpace (cleanCode x) = cleanCode x)
    (h2 : goStarts fenceMark (cleanCode x) = false) :
    cleanCode (cleanCode x) = cleanCode x := by
  conv_lhs => rw [cleanCode]
  simp only [h1, h2]
  simp

/-- C3 (witness): idempotence at an already-clean input. -/
theorem cleanCode_idempotent_on_clean_witness :
    goTrimSpace (cleanCode (str "package main")) = cleanCode (str "package main") ∧
    cleanCode (cleanCode (str "package main")) = cleanCode (str "package main") := by
  exact ⟨by decide, cleanCode_idempotent_on_clean (str "package main") (by decide) (by decide)⟩

/-- C4: when neither the direct unmarshal of the fence-stripped text nor
the unmarshal of its brace-delimited substring recovers a non-empty
source, `parseSourceAndTest` returns the entire original response (not the
fence-stripped text) as source, with an empty test. -/
theorem parseSourceAndTest_last_resort (response : Str)
    (h1 : noSourceRecovered (stripMarkdownFence response) = true)
    (h2 : noSourceRecovered (goSlice (stripMarkdownFence response)
            ((idxOfC (stripMarkdownFence response) '\x7b').toNat)
            ((lastIdxOfC (stripMarkdownFence response) '\x7d').toNat + 1)) = true) :
    parseSourceAndTest response = (response, []) := by
  have brace : braceFallback response (stripMarkdownFence response) = (response, []) := by
    unfold braceFallback
    dsimp only
    split
    · split
      · cases hdec : jsonDecodeSourceTest (goSlice (stripMarkdownFence response)
            ((idxOfC (stripMarkdownFence response) '\x7b').toNat)
            ((lastIdxOfC (stripMarkdownFence response) '\x7d').toNat + 1)) with
        | none => simp [hdec]
        | some res =>
          have : res.source = [] := by
            unfold noSourceRecovered at h2
            rw [hdec] at h2
            exact List.isEmpty_iff.mp h2
          simp [hdec, this]
      · rfl
    · rfl
  unfold parseSourceAndTest
  dsimp only
  cases hdec : jsonDecodeSourceTest (stripMarkdownFence response) with
  | none => simpa [hdec] using brace
  | some res =>
    have : res.source = [] := by
      unfold noSourceRecovered at h1
      rw [hdec] at h1
      exact List.isEmpty_iff.mp h1
    simp only [hdec, this]
    simpa using brace

/-- C4 (witness): the last-resort fallback on plain non-JSON text. -/
theorem parseSourceAndTest_last_resort_witness :
    parseSourceAndTest (str "no json here at all") = (str "no json here at all", []) := by
  exact parseSourceAndTest_last_resort (str "no json here at all") (by decide) (by decide)

/-- C5: when unmarshalling the fence-stripped text recovers a non-empty
source, `parseSourceAndTest` returns the decoded pair; in particular it
strips the fence before parsing. -/
theorem parseSourceAndTest_fence_first (response : Str) (res : SourceTest)
    (h : jsonDecodeSourceTest (stripMarkdownFence response) = some res)
    (hne : res.source ≠ []) :
    parseSourceAndTest response = (res.source, res.test) := by
  unfold parseSourceAndTest
  dsimp only
  rw [h]
  simp [hne]

/-- C5 (witness): the markdown-fenced JSON object of the spec's test
vector decodes to source `package main` and an empty test. -/
theorem parseSourceAndTest_fence_first_witness :
    parseSourceAndTest (str "```json\n\x7b\"source\":\"package main\",\"test\":\"\"\x7d\n```") =
      (str "package main", []) := by
  exact parseSourceAndTest_fence_first
    (str "```json\n\x7b\"source\":\"package main\",\"test\":\"\"\x7d\n```")
    ⟨str "package main", []⟩ (by decide) (by decide)

lemma parseFilenames_eq_bracketPieces (r : Str)
    (h1 : idxOfC r '[' ≥ 0) (h2 : lastIdxOfC r ']' > idxOfC r '[')
    (h3 : bracketPieces r ≠ []) :
    parseFilenames r = bracketPieces r := by
  have hcond : idxOfC r '[' ≥ 0 ∧ lastIdxOfC r ']' > idxOfC r '[' := ⟨h1, h2⟩
  have h3' := h3
  unfold bracketPieces at h3' ⊢
  unfold parseFilenames
  dsimp only
  rw [if_pos hcond, if_neg h3']

/-- C6: when the substring between the first `[` and the last `]`
contributes at least one trimmed `.go`-suffixed comma piece,
`parseFilenames` returns exactly those pieces — the whitespace-token
fallback is not consulted — and every returned entry arises from a comma
piece inside the brackets. -/
theorem parseFilenames_bracket_priority (r : Str)
    (h1 : idxOfC r '[' ≥ 0) (h2 : lastIdxOfC r ']' > idxOfC r '[')
    (h3 : bracketPieces r ≠ []) :
    parseFilenames r = bracketPieces r ∧
    ∀ x ∈ parseFilenames r,
      ∃ p ∈ splitC ',' (goSlice r ((idxOfC r '[').toNat + 1) (lastIdxOfC r ']').toNat),
        x = goTrim trimQuoteSet p := by
  have heq := parseFilenames_eq_bracketPieces r h1 h2 h3
  refine ⟨heq, ?_⟩
  intro x hx
  rw [heq] at hx
  unfold bracketPieces at hx
  rcases List.mem_filter.mp hx with ⟨hmem, -⟩
  rcases List.mem_map.mp hmem with ⟨p, hp, hpx⟩
  exact ⟨p, hp, hpx.symm⟩

/-- C6 (witness): with a bracketed list present, the `.go` token outside
the brackets is ignored and the bracketed entries are returned. -/
theorem parseFilenames_bracket_priority_witness :
    parseFilenames (str "[\"a.go\", \"b.go\"] and also c.go") =
      bracketPieces (str "[\"a.go\", \"b.go\"] and also c.go") ∧
    parseFilenames (str "[\"a.go\", \"b.go\"] and also c.go") = [str "a.go", str "b.go"] := by
  refine ⟨(parseFilenames_bracket_priority (str "[\"a.go\", \"b.go\"] and also c.go")
    (by decide) (by decide) (by decide)).1, by decide⟩

/-- C7: the primary bracketed strategy of `parseFilenames` does not
deduplicate: a `.go`-suffixed name occurs in the result exactly as often
as it occurs among the trimmed comma pieces inside the brackets. -/
theorem parseFilenames_no_dedup (r f : Str)
    (h1 : idxOfC r '[' ≥ 0) (h2 : lastIdxOfC r ']' > idxOfC r '[')
    (h3 : bracketPieces r ≠ [])
    (hf : goEnds dotGo f = true) :
    (parseFilenames r).count f =
      (((splitC ',' (goSlice r ((idxOfC r '[').toNat + 1) (lastIdxOfC r ']').toNat)).map
        (goTrim trimQuoteSet)).count f) := by
  rw [parseFilenames_eq_bracketPieces r h1 h2 h3]
  unfold bracketPieces
  exact List.count_filter hf

/-- C7 (witness): `a.go`, listed twice inside the brackets, is returned
twice. -/
theorem parseFilenames_no_dedup_witness :
    (parseFilenames (str "[\"a.go\",\"b.go\",\"a.go\"]")).count (str "a.go") = 2 ∧
    (parseFilenames (str "[\"a.go\",\"b.go\",\"a.go\"]")).count (str "a.go") =
      (((splitC ',' (goSlice (str "[\"a.go\",\"b.go\",\"a.go\"]")
          ((idxOfC (str "[\"a.go\",\"b.go\",\"a.go\"]") '[').toNat + 1)
          (lastIdxOfC (str "[\"a.go\",\"b.go\",\"a.go\"]") ']').toNat)).map
        (goTrim trimQuoteSet)).count (str "a.go")) := by
  refine ⟨by decide, parseFilenames_no_dedup (str "[\"a.go\",\"b.go\",\"a.go\"]") (str "a.go")
    (by decide) (by decide) (by decide) (by decide)⟩

lemma splitC_nil (sep : Char) : splitC sep [] = [[]] := rfl

lemma splitC_cons (sep c : Char) (cs : Str) :
    splitC sep (c :: cs) =
      match splitC sep cs with
      | [] => [[]]
      | l :: ls => if c = sep then [] :: l :: ls else (c :: l) :: ls := rfl

lemma splitC_ne_nil (sep : Char) (s : Str) : splitC sep s ≠ [] := by
  cases s with
  | nil => simp [splitC_nil]
  | cons c cs =>
    rw [splitC_cons]
    cases h : splitC sep cs with
    | nil => simp
    | cons l ls =>
      by_cases hc : c = sep <;> simp [hc]

lemma splitC_append_sep (sep : Char) (a b : Str) :
    splitC sep (a ++ sep :: b) = splitC sep a ++ splitC sep b := by
  induction a with
  | nil =>
    rw [List.nil_append, splitC_cons, splitC_nil]
    cases h : splitC sep b with
    | nil => exact absurd h (splitC_ne_nil sep b)
    | cons l ls => simp
  | cons c cs ih =>
    rw [List.cons_append, splitC_cons, ih, splitC_cons]
    cases h : splitC sep cs with
    | nil => exact absurd h (splitC_ne_nil sep cs)
    | cons l ls =>
      by_cases hc : c = sep <;> simp [hc]

/-- C10: `countTestsInCode` is a line-wise homomorphism — splitting two
texts on the newline that joins them adds their counts — its value is the
number of lines whose trimmed content starts with `func Test`, it never
exceeds the number of lines, and it is 0 on the empty string. -/
theorem countTestsInCode_props :
    (∀ a b : Str, countTestsInCode (a ++ '\n' :: b) = countTestsInCode a + countTestsInCode b) ∧
    (∀ s : Str, countTestsInCode s =
      ((splitNl s).filter (fun line => goStarts (str "func Test") (goTrimSpace line))).length) ∧
    (∀ s : Str, countTestsInCode s ≤ (splitNl s).length) ∧
    countTestsInCode [] = 0 := by
  refine ⟨?_, fun s => rfl, ?_, rfl⟩
  · intro a b
    unfold countTestsInCode splitNl
    rw [splitC_append_sep]
    simp [List.filter_append]
  · intro s
    exact List.length_filter_le _ _

